import Mathlib

/-!
Shallow embedding of `video_processor.py` (class `VideoProcessor`) and proofs
about its chunking, parsing, and report-building logic.

Text is modelled as `List Char`.  The Python whitespace set is modelled by
the ASCII whitespace characters that `str.split` / `str.strip` treat as
separators.  Effectful calls (audio extraction, speech recognition, the
language-model call) are modelled as `Except`-valued oracles passed in
explicitly; the filesystem state relevant to the scratch audio file is a
`Bool` (does the scratch file exist) threaded through `transcribe_video`.
-/

set_option maxRecDepth 8000
set_option linter.unnecessarySeqFocus false

-- ### Definitions (shallow embedding of the source)

/-- ASCII whitespace, the separator set of the Python string split and strip
methods. -/
def isWs (c : Char) : Bool :=
  c == ' ' || c == '\t' || c == '\n' || c == '\r' || c == '\x0b' || c == '\x0c'

/-- Embeds `text.split()` from the source: split on runs of whitespace,
dropping empty pieces. -/
def pySplit (s : List Char) : List (List Char) :=
  match s with
  | [] => []
  | c :: cs =>
    if isWs c then pySplit cs
    else (c :: cs.takeWhile (fun d => !isWs d)) :: pySplit (cs.dropWhile (fun d => !isWs d))
termination_by s.length
decreasing_by
  · simp
  · have hle : (cs.dropWhile (fun d => !isWs d)).length ≤ cs.length := by
      induction cs with
      | nil => simp [List.dropWhile]
      | cons x xs ih =>
        by_cases hx : (!isWs x) = true
        · rw [List.dropWhile_cons, if_pos hx]
          simp only [List.length_cons]
          omega
        · rw [List.dropWhile_cons, if_neg hx]
    simp
    omega

/-- Embeds the space-join `" ".join(chunks)` used by the source. -/
def joinSp : List (List Char) → List Char
  | [] => []
  | [w] => w
  | w :: ws => w ++ ' ' :: joinSp ws

/-- Embeds `VideoProcessor.MAX_CHUNK_TOKENS`. -/
def MAX_CHUNK_TOKENS : Nat := 3000

/-- Embeds `chars_per_chunk = MAX_CHUNK_TOKENS * 4` from `chunk_text`. -/
def chars_per_chunk : Nat := MAX_CHUNK_TOKENS * 4

/-- The loop of `VideoProcessor.chunk_text`: greedy word accumulation.
`cur` is `current_chunk` (a list of words), `len` is `current_length`
(each word counted as `len(word) + 1`, the `+1` for a space).  The chunks
are produced as word groups; `chunk_text` joins each group with spaces,
mirroring the space-join of `current_chunk` in the source. -/
def chunkGo (B : Nat) : List (List Char) → List (List Char) → Nat → List (List (List Char))
  | [], cur, _ => if cur.isEmpty then [] else [cur]
  | w :: ws, cur, len =>
    let wl := w.length + 1
    if B < len + wl ∧ cur ≠ [] then cur :: chunkGo B ws [w] wl
    else chunkGo B ws (cur ++ [w]) (len + wl)

/-- Embeds `VideoProcessor.chunk_text`. -/
def chunk_text (text : List Char) : List (List Char) :=
  (chunkGo chars_per_chunk (pySplit text) [] 0).map joinSp

/-- Embeds the `current_length` bookkeeping: each word counts as its length
plus one. -/
def lenOf (ws : List (List Char)) : Nat := (ws.map (fun w => w.length + 1)).sum

/-- Embeds `s.strip()` from the source: drop leading and trailing
whitespace. -/
def pyStrip (s : List Char) : List Char :=
  ((s.dropWhile isWs).reverse.dropWhile isWs).reverse

/-- Embeds the newline split `s.split` of the source: split at every
newline, keeping empty segments (so the empty string yields one empty
line). -/
def splitLines : List Char → List (List Char)
  | [] => [[]]
  | c :: cs =>
    if c = '\n' then [] :: splitLines cs
    else
      match splitLines cs with
      | [] => [[c]]
      | l :: ls => (c :: l) :: ls

/-- JSON values, as produced by the Python `json.loads`.  Numbers keep
their validated lexeme: no claim inspects numeric values. -/
inductive Json where
  | null : Json
  | bool (b : Bool) : Json
  | num (lit : String) : Json
  | str (s : String) : Json
  | arr (elems : List Json) : Json
  | obj (fields : List (String × Json)) : Json

/-- JSON insignificant whitespace (the set `json.loads` skips). -/
def skipJsonWs (s : List Char) : List Char :=
  s.dropWhile (fun c => c == ' ' || c == '\t' || c == '\n' || c == '\r')

/-- Single-character string escapes accepted by JSON. -/
def escChar (e : Char) : Option Char :=
  if e = '"' then some '"'
  else if e = '\\' then some '\\'
  else if e = '/' then some '/'
  else if e = 'b' then some '\x08'
  else if e = 'f' then some '\x0c'
  else if e = 'n' then some '\n'
  else if e = 'r' then some '\r'
  else if e = 't' then some '\t'
  else none

def hexVal (c : Char) : Option Nat :=
  if '0' ≤ c ∧ c ≤ '9' then some (c.toNat - '0'.toNat)
  else if 'a' ≤ c ∧ c ≤ 'f' then some (c.toNat - 'a'.toNat + 10)
  else if 'A' ≤ c ∧ c ≤ 'F' then some (c.toNat - 'A'.toNat + 10)
  else none

/-- Body of a JSON string after the opening quote: returns the decoded
content and the remainder after the closing quote.  Unescaped control
characters are rejected, as in strict `json.loads`. -/
def parseStringBody : List Char → Option (List Char × List Char)
  | [] => none
  | c :: cs =>
    if c = '"' then some ([], cs)
    else if c = '\\' then
      match cs with
      | [] => none
      | 'u' :: h1 :: h2 :: h3 :: h4 :: cs' =>
        match hexVal h1, hexVal h2, hexVal h3, hexVal h4 with
        | some a, some b, some d, some e =>
          match parseStringBody cs' with
          | some (body, rest) =>
            some (Char.ofNat (((a * 16 + b) * 16 + d) * 16 + e) :: body, rest)
          | none => none
        | _, _, _, _ => none
      | 'u' :: _ => none
      | e :: cs' =>
        match escChar e with
        | some d =>
          match parseStringBody cs' with
          | some (body, rest) => some (d :: body, rest)
          | none => none
        | none => none
    else if c.toNat < 32 then none
    else
      match parseStringBody cs with
      | some (body, rest) => some (c :: body, rest)
      | none => none

/-- Optional fraction part of a JSON number. -/
def parseFrac (s : List Char) : Option (List Char × List Char) :=
  match s with
  | '.' :: rest =>
    let ds := rest.takeWhile (fun d => d.isDigit)
    if ds.isEmpty then none
    else some ('.' :: ds, rest.dropWhile (fun d => d.isDigit))
  | _ => some ([], s)

/-- Optional exponent part of a JSON number. -/
def parseExp (s : List Char) : Option (List Char × List Char) :=
  match s with
  | [] => some ([], [])
  | e :: rest =>
    if e = 'e' ∨ e = 'E' then
      let (sg, r1) :=
        match rest with
        | '+' :: r => (['+'], r)
        | '-' :: r => (['-'], r)
        | _ => (([] : List Char), rest)
      let ds := r1.takeWhile (fun d => d.isDigit)
      if ds.isEmpty then none
      else some (e :: (sg ++ ds), r1.dropWhile (fun d => d.isDigit))
    else some ([], e :: rest)

/-- A JSON number lexeme: `-? (0 | [1-9][0-9]*) frac? exp?`. -/
def parseNumber (s : List Char) : Option (List Char × List Char) :=
  let (sign, s1) :=
    match s with
    | '-' :: rest => ((['-'] : List Char), rest)
    | _ => (([] : List Char), s)
  match s1 with
  | [] => none
  | c :: rest =>
    let cont := fun (intPart : List Char) (r : List Char) =>
      match parseFrac r with
      | none => none
      | some (f, r1) =>
        match parseExp r1 with
        | none => none
        | some (x, r2) => some (sign ++ intPart ++ f ++ x, r2)
    if c = '0' then cont ['0'] rest
    else if c.isDigit then
      cont (c :: rest.takeWhile (fun d => d.isDigit)) (rest.dropWhile (fun d => d.isDigit))
    else none

mutual

/-- Fuel-bounded JSON value parser (the fuel only bounds recursion; callers
supply enough fuel that the parse of every input is decided). -/
def parseValue : Nat → List Char → Option (Json × List Char)
  | 0, _ => none
  | Nat.succ fuel, s =>
    match skipJsonWs s with
    | [] => none
    | c :: cs =>
      if c = '\x7b' then
        match skipJsonWs cs with
        | '\x7d' :: r => some (.obj [], r)
        | _ =>
          match parseMembers fuel cs with
          | some (fs, r) => some (.obj fs, r)
          | none => none
      else if c = '[' then
        match skipJsonWs cs with
        | ']' :: r => some (.arr [], r)
        | _ =>
          match parseItems fuel cs with
          | some (vs, r) => some (.arr vs, r)
          | none => none
      else if c = '"' then
        match parseStringBody cs with
        | some (b, r) => some (.str (String.mk b), r)
        | none => none
      else if c = 't' then
        match cs with
        | 'r' :: 'u' :: 'e' :: r => some (.bool true, r)
        | _ => none
      else if c = 'f' then
        match cs with
        | 'a' :: 'l' :: 's' :: 'e' :: r => some (.bool false, r)
        | _ => none
      else if c = 'n' then
        match cs with
        | 'u' :: 'l' :: 'l' :: r => some (.null, r)
        | _ => none
      else
        match parseNumber (c :: cs) with
        | some (lit, r) => some (.num (String.mk lit), r)
        | none => none

/-- Comma-separated array items, consuming the closing bracket. -/
def parseItems : Nat → List Char → Option (List Json × List Char)
  | 0, _ => none
  | Nat.succ fuel, s =>
    match parseValue fuel s with
    | none => none
    | some (v, r) =>
      match skipJsonWs r with
      | ',' :: r' =>
        match parseItems fuel r' with
        | some (vs, rr) => some (v :: vs, rr)
        | none => none
      | ']' :: r' => some ([v], r')
      | _ => none

/-- Comma-separated object members, consuming the closing brace. -/
def parseMembers : Nat → List Char → Option (List (String × Json) × List Char)
  | 0, _ => none
  | Nat.succ fuel, s =>
    match skipJsonWs s with
    | '"' :: cs =>
      match parseStringBody cs with
      | some (k, r) =>
        match skipJsonWs r with
        | ':' :: r' =>
          match parseValue fuel r' with
          | some (v, r'') =>
            match skipJsonWs r'' with
            | ',' :: r3 =>
              match parseMembers fuel r3 with
              | some (fs, rr) => some ((String.mk k, v) :: fs, rr)
              | none => none
            | '\x7d' :: r3 => some ([(String.mk k, v)], r3)
            | _ => none
          | none => none
        | _ => none
      | none => none
    | _ => none

end

/-- Embeds the Python `json.loads`: parse one value, allow trailing
whitespace only.
Two fuel units per character over-provision the alternation between value
and item parsing. -/
def json_loads (s : List Char) : Option Json :=
  match parseValue (2 * s.length + 4) s with
  | some (v, rest) => if (skipJsonWs rest).isEmpty then some v else none
  | none => none

/-- Embeds the bracket-span search (regex dot-all over the response): the
span from the first `[`
that has a `]` somewhere after it, extending greedily to the last `]` of
the text.  Since any later `[` sits after the first one, this is the span
from the first `[` to the last `]`, if that pair exists in order. -/
def extractSpan (s : List Char) : Option (List Char) :=
  let t := s.dropWhile (fun c => c != '[')
  if t.isEmpty then none
  else
    let r := t.reverse.dropWhile (fun c => c != ']')
    if r.isEmpty then none else some r.reverse

/-- The record built by the manual fallback parser for one qualifying
line. -/
def mkManualRecord (line : List Char) : Json :=
  .obj [("question", .str (String.mk line)), ("speaker", .str "unknown"),
        ("type", .str "general")]

/-- The loop of `VideoProcessor._parse_questions_manually`: `cur` is
`current_question` (`none` models the initial falsy empty dict). -/
def parseManualGo : List (List Char) → Option Json → List Json
  | [], cur =>
    match cur with
    | none => []
    | some q => [q]
  | l :: ls, cur =>
    let line := pyStrip l
    if line.contains '?' && decide (10 < line.length) then
      match cur with
      | none => parseManualGo ls (some (mkManualRecord line))
      | some q => q :: parseManualGo ls (some (mkManualRecord line))
    else parseManualGo ls cur

/-- Embeds `VideoProcessor._parse_questions_manually`. -/
def _parse_questions_manually (response_text : List Char) : List Json :=
  parseManualGo (splitLines response_text) none

/-- Embeds `VideoProcessor.generate_questions_from_chunk`.  The `ollama.generate`
call is modelled by its outcome: `.ok text` is the response string of the
model, `.error e` an exception raised by the call.  On an exception the
function logs and returns `[]`. -/
def generate_questions_from_chunk (response : Except String (List Char)) : List Json :=
  match response with
  | .error _ => []
  | .ok resp =>
    let response_text := pyStrip resp
    match extractSpan response_text with
    | some json_text =>
      match json_loads json_text with
      | some (Json.arr questions) => questions
      | some _ => []
      | none => []
    | none => _parse_questions_manually response_text

/-- The aggregation loop of `VideoProcessor.generate_questions`
(`all_questions.extend(...)` per chunk, in chunk order). -/
def generate_questions_go (oracle : List Char → Except String (List Char)) :
    List (List Char) → List Json → List Json
  | [], acc => acc
  | c :: cs, acc => generate_questions_go oracle cs (acc ++ generate_questions_from_chunk (oracle c))

/-- Embeds `VideoProcessor.generate_questions`: chunk the transcript and
concatenate the per-chunk results. -/
def generate_questions (oracle : List Char → Except String (List Char))
    (transcript : List Char) : List Json :=
  generate_questions_go oracle (chunk_text transcript) []

/-- Lookup in the field list of a parsed JSON object.  `json.loads` keeps
the last duplicate of a key, so the scan runs from the end. -/
def getField (fields : List (String × Json)) (k : String) : Option Json :=
  fields.reverse.lookup k

/-- Embeds the Python `question.get(key, default)`; a non-dict value raises
an attribute error. -/
def dict_get (q : Json) (k : String) (d : Json) : Except String Json :=
  match q with
  | .obj fields => .ok ((getField fields k).getD d)
  | _ => .error "AttributeError"

/-- Embeds the speaker accessor of `save_questions`: `question.get` with
key `speaker`, default `unknown`. -/
def speakerOf (q : Json) : Except String Json := dict_get q "speaker" (.str "unknown")

/-- Embeds the type accessor of `save_questions`: `question.get` with key
`type`, default `general`. -/
def typeOf (q : Json) : Except String Json := dict_get q "type" (.str "general")

/-- The fixed-key `by_speaker` dict of the report. -/
structure SpeakerBuckets where
  interviewer : List Json
  interviewee : List Json
  unknown : List Json

/-- The fixed-key `by_type` dict of the report. -/
structure TypeBuckets where
  technical : List Json
  behavioral : List Json
  general : List Json

/-- The `organized_questions` dict built by `save_questions`. -/
structure QuestionReport where
  video_name : String
  total_questions : Nat
  by_speaker : SpeakerBuckets
  by_type : TypeBuckets
  all_questions : List Json

/-- Embeds the append into the fixed-key speaker dict of the report: a
string key outside the three fixed keys raises a key error; an unhashable
value (list/dict) raises a type error; other hashable values are absent
keys. -/
def appendSpeaker (r : QuestionReport) (q : Json) : Json → Except String QuestionReport
  | .str k =>
    if k = "interviewer" then
      .ok { r with by_speaker := { r.by_speaker with
        interviewer := r.by_speaker.interviewer ++ [q] } }
    else if k = "interviewee" then
      .ok { r with by_speaker := { r.by_speaker with
        interviewee := r.by_speaker.interviewee ++ [q] } }
    else if k = "unknown" then
      .ok { r with by_speaker := { r.by_speaker with
        unknown := r.by_speaker.unknown ++ [q] } }
    else .error "KeyError"
  | .arr _ => .error "TypeError"
  | .obj _ => .error "TypeError"
  | _ => .error "KeyError"

/-- Embeds the append into the fixed-key type dict of the report. -/
def appendType (r : QuestionReport) (q : Json) : Json → Except String QuestionReport
  | .str k =>
    if k = "technical" then
      .ok { r with by_type := { r.by_type with
        technical := r.by_type.technical ++ [q] } }
    else if k = "behavioral" then
      .ok { r with by_type := { r.by_type with
        behavioral := r.by_type.behavioral ++ [q] } }
    else if k = "general" then
      .ok { r with by_type := { r.by_type with
        general := r.by_type.general ++ [q] } }
    else .error "KeyError"
  | .arr _ => .error "TypeError"
  | .obj _ => .error "TypeError"
  | _ => .error "KeyError"

/-- One iteration of the categorisation loop in `save_questions`. -/
def save_step (r : QuestionReport) (q : Json) : Except String QuestionReport :=
  match speakerOf q with
  | .error e => .error e
  | .ok s =>
    match typeOf q with
    | .error e => .error e
    | .ok t =>
      match appendSpeaker r q s with
      | .error e => .error e
      | .ok r1 => appendType r1 q t

/-- The categorisation loop of `save_questions` over all questions. -/
def save_go : QuestionReport → List Json → Except String QuestionReport
  | r, [] => .ok r
  | r, q :: qs =>
    match save_step r q with
    | .error e => .error e
    | .ok r' => save_go r' qs

/-- Embeds `VideoProcessor.save_questions`, up to the JSON file write (out
of scope): build `organized_questions` and run the categorisation loop.
`video_name` stands for `video_path.name`. -/
def save_questions (video_name : String) (questions : List Json) :
    Except String QuestionReport :=
  save_go
    { video_name := video_name
      total_questions := questions.length
      by_speaker := ⟨[], [], []⟩
      by_type := ⟨[], [], []⟩
      all_questions := questions }
    questions

/-- Effective bucket test: the get-with-default value of the record under
`key`/`dflt` is the string `k`. -/
def keyIs (key dflt : String) (k : String) (q : Json) : Bool :=
  match q with
  | .obj fields =>
    match (getField fields key).getD (.str dflt) with
    | .str s => s == k
    | _ => false
  | _ => false

/-- Effective speaker test: the speaker accessor yields the string `k`. -/
def spkIs (k : String) (q : Json) : Bool := keyIs "speaker" "unknown" k q

/-- Effective type test: the type accessor yields the string `k`. -/
def typIs (k : String) (q : Json) : Bool := keyIs "type" "general" k q

/-- A question record as §3 of the spec defines it: a dict whose effective
speaker is one of the three speaker keys and whose effective type is one
of the three type keys (missing fields fall back to the defaults). -/
def validRecord (q : Json) : Bool :=
  (spkIs "interviewer" q || spkIs "interviewee" q || spkIs "unknown" q) &&
  (typIs "technical" q || typIs "behavioral" q || typIs "general" q)

/-- Pure effect of one successful categorisation-loop iteration. -/
def bucketed (r : QuestionReport) (q : Json) : QuestionReport :=
  { r with
    by_speaker :=
      { interviewer := r.by_speaker.interviewer ++ if spkIs "interviewer" q then [q] else []
        interviewee := r.by_speaker.interviewee ++ if spkIs "interviewee" q then [q] else []
        unknown := r.by_speaker.unknown ++ if spkIs "unknown" q then [q] else [] }
    by_type :=
      { technical := r.by_type.technical ++ if typIs "technical" q then [q] else []
        behavioral := r.by_type.behavioral ++ if typIs "behavioral" q then [q] else []
        general := r.by_type.general ++ if typIs "general" q then [q] else [] } }

/-- Is an `Except` outcome a success? -/
def exceptOk {α : Type} (e : Except String α) : Bool :=
  match e with
  | .ok _ => true
  | .error _ => false

/-- Embeds `VideoProcessor.transcribe_video`, as a state machine over the
scratch audio file (the video path with a wav suffix).  `extract` is the outcome
of `VideoFileClip(...).audio.write_audiofile(...)` (on success the scratch
file exists), `recognize` the outcome of `whisper_model.transcribe(...)`.
The source has no `finally` block: the only `unlink` sits on the success
path after recognition, and the `except` handler just logs and re-raises.
The function returns the (stripped) transcript or the propagated
exception, paired with whether the scratch file is left on disk. -/
def transcribe_video (extract : Except String Unit)
    (recognize : Except String (List Char)) : Except String (List Char) × Bool :=
  match extract with
  | .error e => (.error e, false)
  | .ok _ =>
    match recognize with
    | .error e => (.error e, true)
    | .ok text => (.ok (pyStrip text), false)

-- ### Theorems

theorem pySplit_nil : pySplit [] = [] := by rw [pySplit.eq_def]

theorem pySplit_cons (c : Char) (cs : List Char) :
    pySplit (c :: cs) = if isWs c then pySplit cs
      else (c :: cs.takeWhile (fun d => !isWs d)) :: pySplit (cs.dropWhile (fun d => !isWs d)) := by
  rw [pySplit.eq_def]

theorem pySplit_word_nonempty {s : List Char} {w : List Char}
    (h : w ∈ pySplit s) : w ≠ [] := by
  induction s using pySplit.induct with
  | case1 => rw [pySplit_nil] at h; simp at h
  | case2 c cs hws ih =>
    rw [pySplit_cons, if_pos hws] at h
    exact ih h
  | case3 c cs hws ih =>
    rw [pySplit_cons, if_neg hws] at h
    rw [List.mem_cons] at h
    rcases h with h | h
    · simp [h]
    · exact ih h

theorem pySplit_word_noWs {s : List Char} {w : List Char}
    (h : w ∈ pySplit s) : ∀ c ∈ w, isWs c = false := by
  induction s using pySplit.induct with
  | case1 => rw [pySplit_nil] at h; simp at h
  | case2 c cs hws ih =>
    rw [pySplit_cons, if_pos hws] at h
    exact ih h
  | case3 c cs hws ih =>
    rw [pySplit_cons, if_neg hws] at h
    rw [List.mem_cons] at h
    rcases h with h | h
    · subst h
      intro d hd
      rw [List.mem_cons] at hd
      rcases hd with hd | hd
      · subst hd; simpa using hws
      · have := List.mem_takeWhile_imp hd
        simpa using this
    · exact ih h

theorem takeWhile_all (p : Char → Bool) (l : List Char)
    (h : ∀ c ∈ l, p c = true) : l.takeWhile p = l := by
  induction l with
  | nil => simp
  | cons c cs ih =>
    have hc : p c = true := h c (by simp)
    simp [List.takeWhile_cons, hc, ih (fun d hd => h d (by simp [hd]))]

theorem dropWhile_all (p : Char → Bool) (l : List Char)
    (h : ∀ c ∈ l, p c = true) : l.dropWhile p = [] := by
  induction l with
  | nil => simp
  | cons c cs ih =>
    have hc : p c = true := h c (by simp)
    simp [List.dropWhile_cons, hc, ih (fun d hd => h d (by simp [hd]))]

theorem takeWhile_all_append (p : Char → Bool) (a b : List Char)
    (h : ∀ c ∈ a, p c = true) : (a ++ b).takeWhile p = a ++ b.takeWhile p := by
  induction a with
  | nil => simp
  | cons c cs ih =>
    have hc : p c = true := h c (by simp)
    simp [List.takeWhile_cons, hc, ih (fun d hd => h d (by simp [hd]))]

theorem dropWhile_all_append (p : Char → Bool) (a b : List Char)
    (h : ∀ c ∈ a, p c = true) : (a ++ b).dropWhile p = b.dropWhile p := by
  induction a with
  | nil => simp
  | cons c cs ih =>
    have hc : p c = true := h c (by simp)
    simp [List.dropWhile_cons, hc, ih (fun d hd => h d (by simp [hd]))]

/-- Splitting a single whitespace-free nonempty word gives back the word. -/
theorem pySplit_single {w : List Char} (hne : w ≠ [])
    (hw : ∀ c ∈ w, isWs c = false) : pySplit w = [w] := by
  match w, hne with
  | c :: cs, _ =>
    have hc : isWs c = false := hw c (by simp)
    rw [pySplit_cons, if_neg (by simp [hc])]
    rw [takeWhile_all _ cs (fun d hd => by simp [hw d (by simp [hd])])]
    rw [dropWhile_all _ cs (fun d hd => by simp [hw d (by simp [hd])])]
    rw [pySplit_nil]

/-- Splitting a word followed by a space and a remainder peels off the
word. -/
theorem pySplit_word_space {w : List Char} (hne : w ≠ [])
    (hw : ∀ c ∈ w, isWs c = false) (rest : List Char) :
    pySplit (w ++ ' ' :: rest) = w :: pySplit rest := by
  match w, hne with
  | c :: cs, _ =>
    have hc : isWs c = false := hw c (by simp)
    rw [List.cons_append, pySplit_cons, if_neg (by simp [hc])]
    rw [takeWhile_all_append _ cs _ (fun d hd => by simp [hw d (by simp [hd])])]
    rw [dropWhile_all_append _ cs _ (fun d hd => by simp [hw d (by simp [hd])])]
    have hsp : isWs ' ' = true := by decide
    rw [show (' ' :: rest).takeWhile (fun d => !isWs d) = [] by simp [List.takeWhile_cons, hsp]]
    rw [show (' ' :: rest).dropWhile (fun d => !isWs d) = ' ' :: rest by simp [List.dropWhile_cons, hsp]]
    rw [show pySplit (' ' :: rest) = pySplit rest by rw [pySplit_cons, if_pos hsp]]
    simp

/-- Joining a nonempty-headed concatenation. -/
theorem joinSp_append {a b : List (List Char)} (ha : a ≠ []) (hb : b ≠ []) :
    joinSp (a ++ b) = joinSp a ++ ' ' :: joinSp b := by
  induction a with
  | nil => exact absurd rfl ha
  | cons x a' ih =>
    match a' with
    | [] =>
      match b, hb with
      | y :: b', _ => simp [joinSp]
    | z :: a'' =>
      have hrec := ih (by simp)
      have h1 : joinSp (x :: (z :: a'' ++ b)) = x ++ ' ' :: joinSp (z :: a'' ++ b) := rfl
      rw [List.cons_append, h1, hrec]
      simp [joinSp]

/-- Joining the per-group joins equals joining the flattened word list, as
long as no group is empty. -/
theorem joinSp_map_joinSp {gs : List (List (List Char))}
    (h : ∀ g ∈ gs, g ≠ []) : joinSp (gs.map joinSp) = joinSp gs.flatten := by
  induction gs with
  | nil => rfl
  | cons g gs' ih =>
    match gs' with
    | [] => simp [joinSp]
    | g' :: gs'' =>
      have hg : g ≠ [] := h g (by simp)
      have hfl : (g' :: gs'').flatten ≠ [] := by
        have hg' : g' ≠ [] := h g' (by simp)
        match g', hg' with
        | x :: g''', _ => simp
      have hrec := ih (fun u hu => h u (by simp [hu]))
      have h1 : joinSp (joinSp g :: joinSp g' :: gs''.map joinSp)
          = joinSp g ++ ' ' :: joinSp (joinSp g' :: gs''.map joinSp) := rfl
      simp only [List.map_cons] at hrec ⊢
      rw [h1, hrec]
      rw [show (g :: g' :: gs'').flatten = g ++ (g' :: gs'').flatten from rfl]
      rw [joinSp_append hg hfl]

/-- On lists of nonempty whitespace-free words, `pySplit` is a left inverse
of `joinSp`. -/
theorem pySplit_joinSp {ws : List (List Char)}
    (hne : ∀ w ∈ ws, w ≠ []) (hw : ∀ w ∈ ws, ∀ c ∈ w, isWs c = false) :
    pySplit (joinSp ws) = ws := by
  induction ws with
  | nil => rw [show joinSp [] = [] from rfl, pySplit_nil]
  | cons w ws' ih =>
    match ws' with
    | [] =>
      rw [show joinSp [w] = w from rfl]
      exact pySplit_single (hne w (by simp)) (hw w (by simp))
    | x :: ws'' =>
      have h1 : joinSp (w :: x :: ws'') = w ++ ' ' :: joinSp (x :: ws'') := rfl
      rw [h1, pySplit_word_space (hne w (by simp)) (hw w (by simp))]
      rw [ih (fun v hv => hne v (by simp [hv])) (fun v hv => hw v (by simp [hv]))]

theorem lenOf_nil : lenOf [] = 0 := rfl

theorem lenOf_append (a b : List (List Char)) : lenOf (a ++ b) = lenOf a + lenOf b := by
  simp [lenOf]

theorem lenOf_cons (w : List Char) (ws : List (List Char)) :
    lenOf (w :: ws) = (w.length + 1) + lenOf ws := by
  simp [lenOf]

theorem lenOf_single (w : List Char) : lenOf [w] = w.length + 1 := by
  simp [lenOf]

/-- For a nonempty word group, `current_length` is the joined length plus
one (the counted trailing separator). -/
theorem lenOf_joinSp {ws : List (List Char)} (h : ws ≠ []) :
    lenOf ws = (joinSp ws).length + 1 := by
  induction ws with
  | nil => exact absurd rfl h
  | cons w ws' ih =>
    match ws' with
    | [] => simp [lenOf, joinSp]
    | x :: ws'' =>
      have hrec := ih (by simp)
      rw [lenOf_cons, hrec, show joinSp (w :: x :: ws'') = w ++ ' ' :: joinSp (x :: ws'') from rfl]
      simp
      omega

/-- No word of the input is lost, duplicated, or reordered: the word groups
flatten back to the input word list. -/
theorem chunkGo_flatten (B : Nat) (ws : List (List Char)) :
    ∀ cur len, (chunkGo B ws cur len).flatten = cur ++ ws := by
  induction ws with
  | nil =>
    intro cur len
    match cur with
    | [] => simp [chunkGo]
    | c :: cur' => simp [chunkGo]
  | cons w ws' ih =>
    intro cur len
    simp only [chunkGo]
    by_cases h : B < len + (w.length + 1) ∧ cur ≠ []
    · rw [if_pos h]
      simp [ih]
    · rw [if_neg h]
      simp [ih]

/-- The chunking loop never emits an empty word group. -/
theorem chunkGo_ne_nil (B : Nat) (ws : List (List Char)) :
    ∀ cur len g, g ∈ chunkGo B ws cur len → g ≠ [] := by
  induction ws with
  | nil =>
    intro cur len g hg
    match cur with
    | [] => simp [chunkGo] at hg
    | c :: cur' =>
      simp [chunkGo] at hg
      simp [hg]
  | cons w ws' ih =>
    intro cur len g hg
    simp only [chunkGo] at hg
    by_cases h : B < len + (w.length + 1) ∧ cur ≠ []
    · rw [if_pos h] at hg
      rcases List.mem_cons.mp hg with hg | hg
      · rw [hg]; exact h.2
      · exact ih _ _ _ hg
    · rw [if_neg h] at hg
      exact ih _ _ _ hg

/-- Every word group either fits the budget (counting one separator per
word) or is a single word. -/
theorem chunkGo_size (B : Nat) (ws : List (List Char)) :
    ∀ cur, (lenOf cur ≤ B ∨ ∃ w, cur = [w]) →
      ∀ g ∈ chunkGo B ws cur (lenOf cur), lenOf g ≤ B ∨ ∃ w, g = [w] := by
  induction ws with
  | nil =>
    intro cur hcur g hg
    match cur with
    | [] => simp [chunkGo] at hg
    | c :: cur' =>
      simp [chunkGo] at hg
      rw [hg]; exact hcur
  | cons w ws' ih =>
    intro cur hcur g hg
    simp only [chunkGo] at hg
    by_cases h : B < lenOf cur + (w.length + 1) ∧ cur ≠ []
    · rw [if_pos h] at hg
      rcases List.mem_cons.mp hg with hg | hg
      · rw [hg]; exact hcur
      · rw [show w.length + 1 = lenOf [w] from (lenOf_single w).symm] at hg
        exact ih [w] (Or.inr ⟨w, rfl⟩) g hg
    · rw [if_neg h] at hg
      rw [show lenOf cur + (w.length + 1) = lenOf (cur ++ [w]) by
        rw [lenOf_append, lenOf_single]] at hg
      refine ih (cur ++ [w]) ?_ g hg
      by_cases hc : cur = []
      · exact Or.inr ⟨w, by rw [hc]; rfl⟩
      · left
        have hle : ¬ B < lenOf cur + (w.length + 1) := fun hlt => h ⟨hlt, hc⟩
        rw [lenOf_append, lenOf_single]
        omega

/-- If everything fits in one budget, the loop emits a single group holding
all remaining words. -/
theorem chunkGo_small (B : Nat) (ws : List (List Char)) :
    ∀ cur, cur ++ ws ≠ [] → lenOf (cur ++ ws) ≤ B →
      chunkGo B ws cur (lenOf cur) = [cur ++ ws] := by
  induction ws with
  | nil =>
    intro cur hne hlen
    match cur with
    | [] => simp at hne
    | c :: cur' => simp [chunkGo]
  | cons w ws' ih =>
    intro cur hne hlen
    simp only [chunkGo]
    have htot : lenOf cur + (w.length + 1) + lenOf ws' = lenOf (cur ++ w :: ws') := by
      rw [lenOf_append, lenOf_cons]
      omega
    have hcond : ¬ (B < lenOf cur + (w.length + 1) ∧ cur ≠ []) := by
      rintro ⟨hlt, -⟩
      omega
    rw [if_neg hcond]
    rw [show lenOf cur + (w.length + 1) = lenOf (cur ++ [w]) by
      rw [lenOf_append, lenOf_single]]
    have := ih (cur ++ [w]) (by simp) (by simpa using hlen)
    simpa using this

theorem pySplit_hi : pySplit ['h', 'i'] = [['h', 'i']] :=
  pySplit_single (by simp) (by decide)

theorem pySplit_ws_pair : pySplit [' ', '\t'] = [] := by
  rw [pySplit_cons, if_pos (by decide), pySplit_cons, if_pos (by decide), pySplit_nil]

theorem pySplit_replicate_long : pySplit (List.replicate 12001 'a') = [List.replicate 12001 'a'] :=
  pySplit_single
    (by
      intro h
      have h' := congrArg List.length h
      rw [List.length_replicate, List.length_nil] at h'
      omega)
    (by
      intro c hc
      rw [List.eq_of_mem_replicate hc]
      decide)

/-- C1: chunking coverage invariant — for every input string, the chunks of
`chunk_text`, rejoined with single spaces, tokenize to exactly the
whitespace-tokenization of the input (no word lost, duplicated, or
reordered), and the rejoined chunk sequence reconstructs the
whitespace-normalized input. -/
theorem chunk_text_coverage (t : List Char) :
    pySplit (joinSp (chunk_text t)) = pySplit t ∧
    joinSp (chunk_text t) = joinSp (pySplit t) := by
  have hflat : (chunkGo chars_per_chunk (pySplit t) [] 0).flatten = pySplit t := by
    simpa using chunkGo_flatten chars_per_chunk (pySplit t) [] 0
  have hne : ∀ g ∈ chunkGo chars_per_chunk (pySplit t) [] 0, g ≠ [] :=
    fun g hg => chunkGo_ne_nil chars_per_chunk (pySplit t) [] 0 g hg
  have hjoin : joinSp (chunk_text t) = joinSp (pySplit t) := by
    rw [chunk_text, joinSp_map_joinSp hne, hflat]
  refine ⟨?_, hjoin⟩
  rw [hjoin]
  exact pySplit_joinSp (fun w hw => pySplit_word_nonempty hw)
    (fun w hw => pySplit_word_noWs hw)

/-- C6: chunk size bound — every chunk of `chunk_text` has character length
at most `chars_per_chunk`, except that a chunk longer than the budget is
exactly one (overlong) input word, sharing its chunk with no other word;
and every overlong input word does appear as a chunk of its own (never
dropped, never split). -/
theorem chunk_text_size_bound (t : List Char) :
    (∀ c ∈ chunk_text t,
      c.length ≤ chars_per_chunk ∨ (chars_per_chunk < c.length ∧ c ∈ pySplit t)) ∧
    (∀ w ∈ pySplit t, chars_per_chunk < w.length → w ∈ chunk_text t) := by
  have hflat : (chunkGo chars_per_chunk (pySplit t) [] 0).flatten = pySplit t := by
    simpa using chunkGo_flatten chars_per_chunk (pySplit t) [] 0
  have hsize : ∀ g ∈ chunkGo chars_per_chunk (pySplit t) [] 0,
      lenOf g ≤ chars_per_chunk ∨ ∃ w, g = [w] := by
    have h0 : lenOf ([] : List (List Char)) = 0 := rfl
    intro g hg
    refine chunkGo_size chars_per_chunk (pySplit t) [] (Or.inl (by simp [h0])) g ?_
    rw [show lenOf ([] : List (List Char)) = 0 from rfl]
    exact hg
  constructor
  · intro c hc
    rw [chunk_text, List.mem_map] at hc
    obtain ⟨g, hg, rfl⟩ := hc
    rcases hsize g hg with hfit | ⟨w, rfl⟩
    · left
      have hgne : g ≠ [] := chunkGo_ne_nil chars_per_chunk (pySplit t) [] 0 g hg
      have := lenOf_joinSp hgne
      omega
    · rw [show joinSp [w] = w from rfl]
      by_cases hlen : w.length ≤ chars_per_chunk
      · exact Or.inl hlen
      · right
        refine ⟨by omega, ?_⟩
        rw [← hflat]
        exact List.mem_flatten.mpr ⟨[w], hg, by simp⟩
  · intro w hw hlong
    rw [← hflat] at hw
    obtain ⟨g, hg, hwg⟩ := List.mem_flatten.mp hw
    rcases hsize g hg with hfit | ⟨w', rfl⟩
    · exfalso
      have hmem : w.length + 1 ∈ g.map (fun v => v.length + 1) :=
        List.mem_map_of_mem _ hwg
      have : w.length + 1 ≤ lenOf g := List.single_le_sum (by simp) _ hmem
      omega
    · have hww' : w = w' := by simpa using hwg
      rw [chunk_text]
      subst hww'
      exact List.mem_map.mpr ⟨[w], hg, rfl⟩

/-- Witness for C6: a single 12001-character word (budget is 12000) is kept
whole as its own chunk. -/
theorem chunk_text_size_bound_witness :
    List.replicate 12001 'a' ∈ chunk_text (List.replicate 12001 'a') := by
  refine (chunk_text_size_bound (List.replicate 12001 'a')).2 _ ?_ ?_
  · rw [pySplit_replicate_long]
    exact List.mem_singleton.mpr rfl
  · rw [List.length_replicate]
    norm_num [chars_per_chunk, MAX_CHUNK_TOKENS]

/-- C7: chunking boundary cases — an empty or whitespace-only input yields
the empty chunk list (the single well-defined result of the code), and a text
with at least one word whose whitespace-normalized form is shorter than the
budget yields exactly one chunk, equal to the whitespace-normalized
input. -/
theorem chunk_text_boundary :
    (∀ t : List Char, (∀ c ∈ t, isWs c = true) → chunk_text t = []) ∧
    (∀ t : List Char, pySplit t ≠ [] →
      (joinSp (pySplit t)).length < chars_per_chunk →
      chunk_text t = [joinSp (pySplit t)]) := by
  constructor
  · intro t hws
    have hsplit : pySplit t = [] := by
      induction t using pySplit.induct with
      | case1 => exact pySplit_nil
      | case2 c cs hc ih =>
        rw [pySplit_cons, if_pos hc]
        exact ih (fun d hd => hws d (by simp [hd]))
      | case3 c cs hc ih =>
        exact absurd (hws c (by simp)) (by simpa using hc)
    rw [chunk_text, hsplit]
    rfl
  · intro t hne hlen
    have hfit : lenOf (pySplit t) ≤ chars_per_chunk := by
      rw [lenOf_joinSp hne]
      omega
    have := chunkGo_small chars_per_chunk (pySplit t) [] (by simpa using hne)
      (by simpa using hfit)
    rw [chunk_text, show lenOf ([] : List (List Char)) = 0 from rfl] at *
    rw [this]
    rfl

/-- Witness for C7: a whitespace-only input yields no chunks, and a short
two-word input yields exactly one chunk equal to the normalized input. -/
theorem chunk_text_boundary_witness :
    chunk_text [' ', '\t'] = [] ∧ chunk_text ['h', 'i'] = [['h', 'i']] := by
  constructor
  · exact chunk_text_boundary.1 [' ', '\t'] (by decide)
  · have h2 := chunk_text_boundary.2 ['h', 'i']
      (by rw [pySplit_hi]; simp)
      (by rw [pySplit_hi]; simp [joinSp, chars_per_chunk, MAX_CHUNK_TOKENS])
    rw [pySplit_hi] at h2
    simpa [joinSp] using h2

theorem parseManualGo_some (ls : List (List Char)) (q : Json) :
    parseManualGo ls (some q) = q :: parseManualGo ls none := by
  induction ls with
  | nil => rfl
  | cons l ls ih =>
    simp only [parseManualGo]
    by_cases h : (pyStrip l).contains '?' && decide (10 < (pyStrip l).length)
    · rw [if_pos h, if_pos h]
    · rw [if_neg h, if_neg h]
      exact ih

/-- C8: the manual fallback parser returns exactly one record per stripped
line that contains `?` and is longer than 10 characters, in order of
appearance, each with that line as question, speaker `unknown` and type
`general`. -/
theorem parse_questions_manually_spec (t : List Char) :
    _parse_questions_manually t =
      (((splitLines t).map pyStrip).filter
        (fun l => l.contains '?' && decide (10 < l.length))).map mkManualRecord := by
  rw [_parse_questions_manually]
  generalize splitLines t = ls
  induction ls with
  | nil => rfl
  | cons l ls ih =>
    simp only [parseManualGo, List.map_cons, List.filter_cons]
    by_cases h : (pyStrip l).contains '?' && decide (10 < (pyStrip l).length)
    · rw [if_pos h, if_pos h, parseManualGo_some, ih]
      rfl
    · rw [if_neg h, if_neg h]
      exact ih

/-- C3 is false on the code: when a bracket-delimited span is found but is
not valid JSON, `generate_questions_from_chunk` returns `[]` and does not
invoke the manual line parser, whose result here is nonempty. -/
theorem generate_questions_from_chunk_no_fallback_counterexample :
    generate_questions_from_chunk
        (.ok "Nice to meet you.\n[oops]\nWhat is your name please today?".data) = [] ∧
    generate_questions_from_chunk
        (.ok "Nice to meet you.\n[oops]\nWhat is your name please today?".data) ≠
      _parse_questions_manually
        (pyStrip "Nice to meet you.\n[oops]\nWhat is your name please today?".data) := by
  have h1 : generate_questions_from_chunk
      (.ok "Nice to meet you.\n[oops]\nWhat is your name please today?".data) = [] := rfl
  have h2 : _parse_questions_manually
      (pyStrip "Nice to meet you.\n[oops]\nWhat is your name please today?".data) =
      [mkManualRecord "What is your name please today?".data] := rfl
  refine ⟨h1, ?_⟩
  rw [h1, h2]
  intro h
  exact List.noConfusion h

/-- C3 (amended): if a bracket-delimited span is found but fails to parse
as JSON, `generate_questions_from_chunk` returns the empty list; the
manual line-based fallback parser is applied to the (stripped) response
only when no bracket-delimited span is found at all. -/
theorem generate_questions_from_chunk_parse_policy (r : List Char) :
    (∀ jt, extractSpan (pyStrip r) = some jt → json_loads jt = none →
      generate_questions_from_chunk (.ok r) = []) ∧
    (extractSpan (pyStrip r) = none →
      generate_questions_from_chunk (.ok r) = _parse_questions_manually (pyStrip r)) := by
  constructor
  · intro jt hspan hparse
    simp only [generate_questions_from_chunk, hspan, hparse]
  · intro hspan
    simp only [generate_questions_from_chunk, hspan]

/-- Witness for the amended C3, at one response with an unparseable span
and one response with no span. -/
theorem generate_questions_from_chunk_parse_policy_witness :
    generate_questions_from_chunk
        (.ok "Nice to meet you.\n[oops]\nWhat is your name please today?".data) = [] ∧
    generate_questions_from_chunk (.ok "What is your name please today?".data) =
      _parse_questions_manually (pyStrip "What is your name please today?".data) := by
  constructor
  · exact (generate_questions_from_chunk_parse_policy _).1 "[oops]".data rfl rfl
  · exact (generate_questions_from_chunk_parse_policy _).2 rfl

theorem generate_questions_go_spec (oracle : List Char → Except String (List Char))
    (cs : List (List Char)) :
    ∀ acc, generate_questions_go oracle cs acc =
      acc ++ (cs.map (fun c => generate_questions_from_chunk (oracle c))).flatten := by
  induction cs with
  | nil => intro acc; simp [generate_questions_go]
  | cons c cs ih =>
    intro acc
    simp only [generate_questions_go, List.map_cons, List.flatten_cons]
    rw [ih]
    simp

/-- C9: per-chunk failure isolation — a chunk whose language-model call
raises contributes the empty list rather than an exception, and
`generate_questions` is exactly the concatenation, in chunk order, of the
per-chunk results, so the remaining chunks are still processed. -/
theorem generate_questions_isolation (oracle : List Char → Except String (List Char))
    (t : List Char) :
    (∀ e, generate_questions_from_chunk (.error e) = []) ∧
    generate_questions oracle t =
      ((chunk_text t).map (fun c => generate_questions_from_chunk (oracle c))).flatten := by
  refine ⟨fun e => rfl, ?_⟩
  rw [generate_questions, generate_questions_go_spec]
  simp

theorem keyIs_obj_eq {key dflt k : String} {fields : List (String × Json)}
    (h : keyIs key dflt k (.obj fields) = true) :
    (getField fields key).getD (.str dflt) = .str k := by
  simp only [keyIs] at h
  rcases hv : (getField fields key).getD (.str dflt) with _ | b | n | s | es | fs <;>
    rw [hv] at h <;> simp at h
  rw [h]

theorem keyIs_unique {key dflt k k' : String} {q : Json}
    (h1 : keyIs key dflt k q = true) (h2 : keyIs key dflt k' q = true) : k = k' := by
  match q with
  | .null => simp [keyIs] at h1
  | .bool b => simp [keyIs] at h1
  | .num n => simp [keyIs] at h1
  | .str s => simp [keyIs] at h1
  | .arr es => simp [keyIs] at h1
  | .obj fields =>
    have hv1 := keyIs_obj_eq h1
    have hv2 := keyIs_obj_eq h2
    rw [hv1] at hv2
    injection hv2

theorem spkIs_obj_eq {k : String} {fields : List (String × Json)}
    (h : spkIs k (.obj fields) = true) :
    (getField fields "speaker").getD (.str "unknown") = .str k := keyIs_obj_eq h

theorem typIs_obj_eq {k : String} {fields : List (String × Json)}
    (h : typIs k (.obj fields) = true) :
    (getField fields "type").getD (.str "general") = .str k := keyIs_obj_eq h

/-- The loop iteration of a valid record succeeds and appends it to exactly the
bucket of its effective speaker and the bucket of its effective type. -/
theorem save_step_ok (r : QuestionReport) (q : Json) (h : validRecord q = true) :
    save_step r q = .ok (bucketed r q) := by
  match q with
  | .null => simp [validRecord, spkIs, keyIs] at h
  | .bool b => simp [validRecord, spkIs, keyIs] at h
  | .num n => simp [validRecord, spkIs, keyIs] at h
  | .str s => simp [validRecord, spkIs, keyIs] at h
  | .arr es => simp [validRecord, spkIs, keyIs] at h
  | .obj fields =>
    rw [validRecord] at h
    simp only [Bool.and_eq_true, Bool.or_eq_true] at h
    obtain ⟨hs, ht⟩ := h
    rcases hs with (hs | hs) | hs <;> rcases ht with (ht | ht) | ht <;>
      simp [save_step, speakerOf, typeOf, dict_get, appendSpeaker, appendType,
        bucketed, spkIs, typIs, keyIs, spkIs_obj_eq hs, typIs_obj_eq ht]

theorem save_go_ok (qs : List Json) :
    ∀ r, (∀ q ∈ qs, validRecord q = true) →
      save_go r qs = .ok (qs.foldl bucketed r) := by
  induction qs with
  | nil => intro r _; rfl
  | cons q qs ih =>
    intro r h
    simp only [save_go, save_step_ok r q (h q (List.mem_cons_self q qs)), List.foldl_cons]
    exact ih _ (fun p hp => h p (List.mem_cons_of_mem q hp))

theorem foldl_bucketed_field (f : QuestionReport → List Json) (p : Json → Bool)
    (hf : ∀ r q, f (bucketed r q) = f r ++ (if p q then [q] else []))
    (qs : List Json) : ∀ r, f (qs.foldl bucketed r) = f r ++ qs.filter p := by
  induction qs with
  | nil => intro r; simp
  | cons q qs ih =>
    intro r
    rw [List.foldl_cons, ih, hf]
    by_cases h : p q
    · simp [List.filter_cons, h]
    · simp [List.filter_cons, h]

theorem foldl_bucketed_stable (qs : List Json) : ∀ r : QuestionReport,
    (qs.foldl bucketed r).total_questions = r.total_questions ∧
    (qs.foldl bucketed r).all_questions = r.all_questions := by
  induction qs with
  | nil => intro r; exact ⟨rfl, rfl⟩
  | cons q qs ih =>
    intro r
    rw [List.foldl_cons]
    exact ih (bucketed r q)

theorem length_filter_three (p1 p2 p3 : Json → Bool) (qs : List Json)
    (hcov : ∀ q ∈ qs, p1 q = true ∨ p2 q = true ∨ p3 q = true)
    (h12 : ∀ q, ¬(p1 q = true ∧ p2 q = true))
    (h13 : ∀ q, ¬(p1 q = true ∧ p3 q = true))
    (h23 : ∀ q, ¬(p2 q = true ∧ p3 q = true)) :
    (qs.filter p1).length + (qs.filter p2).length + (qs.filter p3).length = qs.length := by
  induction qs with
  | nil => rfl
  | cons q qs ih =>
    have hrec := ih (fun p hp => hcov p (List.mem_cons_of_mem q hp))
    have hfalse : ∀ (pa pb : Json → Bool), (∀ x, ¬(pa x = true ∧ pb x = true)) →
        pa q = true → pb q = false := by
      intro pa pb hab ha
      rcases hb : pb q with _ | _
      · rfl
      · exact absurd ⟨ha, hb⟩ (hab q)
    rcases hcov q (List.mem_cons_self q qs) with h1 | h1 | h1
    · have h2 := hfalse _ _ h12 h1
      have h3 := hfalse _ _ h13 h1
      simp [List.filter_cons, h1, h2, h3]
      omega
    · have h2 := hfalse _ _ (fun x hx => h12 x ⟨hx.2, hx.1⟩) h1
      have h3 := hfalse _ _ h23 h1
      simp [List.filter_cons, h1, h2, h3]
      omega
    · have h2 := hfalse _ _ (fun x hx => h13 x ⟨hx.2, hx.1⟩) h1
      have h3 := hfalse _ _ (fun x hx => h23 x ⟨hx.2, hx.1⟩) h1
      simp [List.filter_cons, h1, h2, h3]
      omega

theorem filter_disjoint_of_unique (p p' : Json → Bool) (qs qs' : List Json)
    (hu : ∀ x, ¬(p x = true ∧ p' x = true)) (q : Json) :
    ¬(q ∈ qs.filter p ∧ q ∈ qs'.filter p') := by
  rintro ⟨h1, h2⟩
  exact hu q ⟨List.of_mem_filter h1, List.of_mem_filter h2⟩

/-- C5: report aggregation invariant — for any list of question records
(per §3: effective speaker and type each in their allow-list, missing
fields defaulting), `save_questions` succeeds and the report satisfies
`len(all_questions) = total_questions` = sum of the `by_speaker` bucket
sizes = sum of the `by_type` bucket sizes, with pairwise disjoint
`by_speaker` buckets and pairwise disjoint `by_type` buckets. -/
theorem save_questions_aggregation (name : String) (qs : List Json)
    (h : ∀ q ∈ qs, validRecord q = true) :
    ∃ r, save_questions name qs = .ok r ∧
      r.all_questions.length = r.total_questions ∧
      r.by_speaker.interviewer.length + r.by_speaker.interviewee.length +
        r.by_speaker.unknown.length = r.total_questions ∧
      r.by_type.technical.length + r.by_type.behavioral.length +
        r.by_type.general.length = r.total_questions ∧
      (∀ q, ¬(q ∈ r.by_speaker.interviewer ∧ q ∈ r.by_speaker.interviewee)) ∧
      (∀ q, ¬(q ∈ r.by_speaker.interviewer ∧ q ∈ r.by_speaker.unknown)) ∧
      (∀ q, ¬(q ∈ r.by_speaker.interviewee ∧ q ∈ r.by_speaker.unknown)) ∧
      (∀ q, ¬(q ∈ r.by_type.technical ∧ q ∈ r.by_type.behavioral)) ∧
      (∀ q, ¬(q ∈ r.by_type.technical ∧ q ∈ r.by_type.general)) ∧
      (∀ q, ¬(q ∈ r.by_type.behavioral ∧ q ∈ r.by_type.general)) := by
  have hsu : ∀ (k k' : String), k ≠ k' →
      ∀ x, ¬(spkIs k x = true ∧ spkIs k' x = true) := by
    rintro k k' hkk x ⟨ha, hb⟩
    exact hkk (keyIs_unique ha hb)
  have htu : ∀ (k k' : String), k ≠ k' →
      ∀ x, ¬(typIs k x = true ∧ typIs k' x = true) := by
    rintro k k' hkk x ⟨ha, hb⟩
    exact hkk (keyIs_unique ha hb)
  have hscov : ∀ q ∈ qs,
      spkIs "interviewer" q = true ∨ spkIs "interviewee" q = true ∨
        spkIs "unknown" q = true := by
    intro q hq
    have hv := h q hq
    rw [validRecord] at hv
    simp only [Bool.and_eq_true, Bool.or_eq_true] at hv
    tauto
  have htcov : ∀ q ∈ qs,
      typIs "technical" q = true ∨ typIs "behavioral" q = true ∨
        typIs "general" q = true := by
    intro q hq
    have hv := h q hq
    rw [validRecord] at hv
    simp only [Bool.and_eq_true, Bool.or_eq_true] at hv
    tauto
  set init : QuestionReport :=
    { video_name := name
      total_questions := qs.length
      by_speaker := ⟨[], [], []⟩
      by_type := ⟨[], [], []⟩
      all_questions := qs } with hinit
  refine ⟨qs.foldl bucketed init, by rw [save_questions, save_go_ok qs _ h], ?_, ?_, ?_,
    ?_, ?_, ?_, ?_, ?_, ?_⟩
  · rw [(foldl_bucketed_stable qs init).1, (foldl_bucketed_stable qs init).2]
  · rw [(foldl_bucketed_stable qs init).1]
    rw [foldl_bucketed_field (fun r => r.by_speaker.interviewer) (spkIs "interviewer")
      (fun r q => rfl) qs init]
    rw [foldl_bucketed_field (fun r => r.by_speaker.interviewee) (spkIs "interviewee")
      (fun r q => rfl) qs init]
    rw [foldl_bucketed_field (fun r => r.by_speaker.unknown) (spkIs "unknown")
      (fun r q => rfl) qs init]
    simp only [hinit, List.nil_append]
    exact length_filter_three _ _ _ qs hscov
      (hsu _ _ (by decide)) (hsu _ _ (by decide)) (hsu _ _ (by decide))
  · rw [(foldl_bucketed_stable qs init).1]
    rw [foldl_bucketed_field (fun r => r.by_type.technical) (typIs "technical")
      (fun r q => rfl) qs init]
    rw [foldl_bucketed_field (fun r => r.by_type.behavioral) (typIs "behavioral")
      (fun r q => rfl) qs init]
    rw [foldl_bucketed_field (fun r => r.by_type.general) (typIs "general")
      (fun r q => rfl) qs init]
    simp only [hinit, List.nil_append]
    exact length_filter_three _ _ _ qs htcov
      (htu _ _ (by decide)) (htu _ _ (by decide)) (htu _ _ (by decide))
  · rw [foldl_bucketed_field (fun r => r.by_speaker.interviewer) (spkIs "interviewer")
      (fun r q => rfl) qs init]
    rw [foldl_bucketed_field (fun r => r.by_speaker.interviewee) (spkIs "interviewee")
      (fun r q => rfl) qs init]
    simpa only [hinit, List.nil_append] using
      filter_disjoint_of_unique _ _ qs qs (hsu _ _ (by decide))
  · rw [foldl_bucketed_field (fun r => r.by_speaker.interviewer) (spkIs "interviewer")
      (fun r q => rfl) qs init]
    rw [foldl_bucketed_field (fun r => r.by_speaker.unknown) (spkIs "unknown")
      (fun r q => rfl) qs init]
    simpa only [hinit, List.nil_append] using
      filter_disjoint_of_unique _ _ qs qs (hsu _ _ (by decide))
  · rw [foldl_bucketed_field (fun r => r.by_speaker.interviewee) (spkIs "interviewee")
      (fun r q => rfl) qs init]
    rw [foldl_bucketed_field (fun r => r.by_speaker.unknown) (spkIs "unknown")
      (fun r q => rfl) qs init]
    simpa only [hinit, List.nil_append] using
      filter_disjoint_of_unique _ _ qs qs (hsu _ _ (by decide))
  · rw [foldl_bucketed_field (fun r => r.by_type.technical) (typIs "technical")
      (fun r q => rfl) qs init]
    rw [foldl_bucketed_field (fun r => r.by_type.behavioral) (typIs "behavioral")
      (fun r q => rfl) qs init]
    simpa only [hinit, List.nil_append] using
      filter_disjoint_of_unique _ _ qs qs (htu _ _ (by decide))
  · rw [foldl_bucketed_field (fun r => r.by_type.technical) (typIs "technical")
      (fun r q => rfl) qs init]
    rw [foldl_bucketed_field (fun r => r.by_type.general) (typIs "general")
      (fun r q => rfl) qs init]
    simpa only [hinit, List.nil_append] using
      filter_disjoint_of_unique _ _ qs qs (htu _ _ (by decide))
  · rw [foldl_bucketed_field (fun r => r.by_type.behavioral) (typIs "behavioral")
      (fun r q => rfl) qs init]
    rw [foldl_bucketed_field (fun r => r.by_type.general) (typIs "general")
      (fun r q => rfl) qs init]
    simpa only [hinit, List.nil_append] using
      filter_disjoint_of_unique _ _ qs qs (htu _ _ (by decide))

/-- Witness for C5: two records, the second with both fields missing
(defaulting to `unknown`/`general`). -/
theorem save_questions_aggregation_witness :
    ∃ r, save_questions "interview.mp4"
        [Json.obj [("question", Json.str "What is your experience with Python?"),
                   ("speaker", Json.str "interviewer"), ("type", Json.str "technical")],
         Json.obj [("question", Json.str "Could you tell me more about it?")]] = .ok r ∧
      r.all_questions.length = r.total_questions ∧
      r.by_speaker.interviewer.length + r.by_speaker.interviewee.length +
        r.by_speaker.unknown.length = r.total_questions ∧
      r.by_type.technical.length + r.by_type.behavioral.length +
        r.by_type.general.length = r.total_questions ∧
      (∀ q, ¬(q ∈ r.by_speaker.interviewer ∧ q ∈ r.by_speaker.interviewee)) ∧
      (∀ q, ¬(q ∈ r.by_speaker.interviewer ∧ q ∈ r.by_speaker.unknown)) ∧
      (∀ q, ¬(q ∈ r.by_speaker.interviewee ∧ q ∈ r.by_speaker.unknown)) ∧
      (∀ q, ¬(q ∈ r.by_type.technical ∧ q ∈ r.by_type.behavioral)) ∧
      (∀ q, ¬(q ∈ r.by_type.technical ∧ q ∈ r.by_type.general)) ∧
      (∀ q, ¬(q ∈ r.by_type.behavioral ∧ q ∈ r.by_type.general)) :=
  save_questions_aggregation "interview.mp4" _ (by decide)

/-- C10: `save_questions` is partial over untrusted records — a record
whose speaker value lies outside the three bucket keys makes the
categorisation loop raise `KeyError` and no report is produced; and the
error branch is unreachable exactly under the precondition that every
effective speaker/type value is in its allow-list. -/
theorem save_questions_key_error :
    save_questions "video.mp4"
        [Json.obj [("question", Json.str "Any updates on this?"),
                   ("speaker", Json.str "narrator")]] = .error "KeyError" ∧
    (∀ name qs, (∀ q ∈ qs, validRecord q = true) →
      ∃ r, save_questions name qs = .ok r) := by
  constructor
  · rfl
  · intro name qs h
    exact ⟨_, by rw [save_questions, save_go_ok qs _ h]⟩

/-- Witness for the guarded success branch of C10 at one well-formed
record. -/
theorem save_questions_key_error_witness :
    ∃ r, save_questions "demo.mp4"
        [Json.obj [("question", Json.str "How are you doing today?"),
                   ("speaker", Json.str "interviewee"),
                   ("type", Json.str "behavioral")]] = .ok r :=
  save_questions_key_error.2 "demo.mp4" _ (by decide)

/-- C4: when the extracted bracket span parses as a JSON list,
`generate_questions_from_chunk` returns exactly those elements as the
question records — none fabricated, none dropped, in order — and for a
record (a parsed dict) whose `speaker` or `type` field is missing, the
downstream `get`-accessors coerce the value to `unknown` / `general`
respectively. -/
theorem generate_questions_from_chunk_json_list (r : List Char) (jt : List Char)
    (es : List Json)
    (hspan : extractSpan (pyStrip r) = some jt)
    (hparse : json_loads jt = some (Json.arr es)) :
    generate_questions_from_chunk (.ok r) = es ∧
    (∀ q ∈ es, ∀ fields, q = Json.obj fields →
      (getField fields "speaker" = none → speakerOf q = .ok (Json.str "unknown")) ∧
      (getField fields "type" = none → typeOf q = .ok (Json.str "general"))) := by
  constructor
  · simp only [generate_questions_from_chunk, hspan, hparse]
  · intro q _ fields hf
    subst hf
    constructor
    · intro hn
      simp [speakerOf, dict_get, hn]
    · intro hn
      simp [typeOf, dict_get, hn]

/-- Witness for C4: a one-element JSON array whose record omits both
`speaker` and `type`. -/
theorem generate_questions_from_chunk_json_list_witness :
    generate_questions_from_chunk
        (.ok "Sure! [\x7b\"question\": \"Is this a good question?\"\x7d]".data) =
      [Json.obj [("question", Json.str "Is this a good question?")]] ∧
    speakerOf (Json.obj [("question", Json.str "Is this a good question?")]) =
      .ok (Json.str "unknown") ∧
    typeOf (Json.obj [("question", Json.str "Is this a good question?")]) =
      .ok (Json.str "general") := by
  have h := generate_questions_from_chunk_json_list
    "Sure! [\x7b\"question\": \"Is this a good question?\"\x7d]".data
    "[\x7b\"question\": \"Is this a good question?\"\x7d]".data
    [Json.obj [("question", Json.str "Is this a good question?")]] rfl rfl
  refine ⟨h.1, ?_, ?_⟩
  · exact (h.2 _ (List.mem_singleton.mpr rfl) _ rfl).1 rfl
  · exact (h.2 _ (List.mem_singleton.mpr rfl) _ rfl).2 rfl

/-- C2 is false on the code: with successful audio extraction and a failing
recognition call, `transcribe_video` propagates the failure and leaves the
scratch audio file behind (the `unlink` is only on the success path). -/
theorem transcribe_video_cleanup_counterexample :
    (transcribe_video (.ok ()) (.error "RuntimeError")).2 = true ∧
    (transcribe_video (.ok ()) (.error "RuntimeError")).1 = .error "RuntimeError" :=
  ⟨rfl, rfl⟩

/-- C2 (amended): the scratch audio file is deleted on the successful path,
and none exists when extraction itself fails; but when recognition fails
after a successful extraction the exception propagates with the scratch
file left behind.  Equivalently, the scratch file survives exactly when
extraction succeeded and recognition raised. -/
theorem transcribe_video_cleanup (extract : Except String Unit)
    (recognize : Except String (List Char)) :
    (transcribe_video extract recognize).2 =
      (exceptOk extract && !exceptOk recognize) ∧
    (∀ text, recognize = .ok text → extract = .ok () →
      transcribe_video extract recognize = (.ok (pyStrip text), false)) := by
  constructor
  · match extract with
    | .error e => rfl
    | .ok _ =>
      match recognize with
      | .error e => rfl
      | .ok text => rfl
  · intro text hrec hext
    rw [hrec, hext]
    rfl

/-- Witness for the amended C2 at a concrete successful run. -/
theorem transcribe_video_cleanup_witness :
    transcribe_video (.ok ()) (.ok " What is your experience with Python? ".data) =
      (.ok (pyStrip " What is your experience with Python? ".data), false) :=
  (transcribe_video_cleanup (.ok ()) (.ok " What is your experience with Python? ".data)).2
    " What is your experience with Python? ".data rfl rfl
